import Mathlib

/-!
Verification of the direct-form-I IIR filter evaluator in `src/simulator.cpp`.

The numeric state of the program consists of the coefficient arrays
`B_COEFFS`, `A_COEFFS`, the history arrays `x_hist`, `y_hist` (all of
length `FILTER_ORDER + 1`), and the time accumulator `t`.  Arrays are
modelled as total functions `Nat → ℚ` (indices beyond the array bounds
are never accessed by the code); real-number arithmetic is modelled
exactly over `ℚ`.  The function `process_filter` below is a direct
transcription of the C function of the same name, parametric in the
coefficients and the order so that the algebraic claims can be stated
for every coefficient set.
-/

/-- The compile-time constant `FILTER_ORDER` (`#define FILTER_ORDER 2`). -/
def FILTER_ORDER : Nat := 2

/-- The feedforward coefficient array `B_COEFFS` of the program. -/
def B_COEFFS : Nat → ℚ
  | 0 => 0.000000
  | 1 => 0.020198
  | 2 => -0.000000
  | _ => 0

/-- The feedback coefficient array `A_COEFFS` of the program. -/
def A_COEFFS : Nat → ℚ
  | 0 => 1.000000
  | 1 => -1.788622
  | 2 => 0.808858
  | _ => 0

/-- The history-shift loop
`for (int i = FILTER_ORDER; i > 0; i--) h[i] = h[i-1];`
unrolled from above: `histShift n h` performs the assignments
`h[n] := h[n-1]`, then `h[n-1] := h[n-2]`, ..., then `h[1] := h[0]`. -/
def histShift : Nat → (Nat → ℚ) → (Nat → ℚ)
  | 0, h => h
  | n + 1, h => histShift n (Function.update h (n + 1) (h n))

/-- The feedforward accumulation loop
`for (int i = 0; i <= FILTER_ORDER; i++) y += B_COEFFS[i] * x_hist[i];`
starting from `y = 0.0`. -/
def feedforward (B : Nat → ℚ) (order : Nat) (xh : Nat → ℚ) : ℚ :=
  (List.range (order + 1)).foldl (fun y i => y + B i * xh i) 0

/-- The feedback accumulation loop
`for (int i = 1; i <= FILTER_ORDER; i++) y -= A_COEFFS[i] * y_hist[i];`
starting from the feedforward value `y0`. -/
def feedback (A : Nat → ℚ) (order : Nat) (y0 : ℚ) (yh : Nat → ℚ) : ℚ :=
  (List.range' 1 order).foldl (fun y i => y - A i * yh i) y0

/-- The function `process_filter` of `src/simulator.cpp`, parametric in the
coefficient arrays and order.  It takes the current input sample and the
current history arrays and returns the output sample together with the
updated history arrays `(y, x_hist, y_hist)`. -/
def process_filter (B A : Nat → ℚ) (order : Nat) (x : ℚ) (xh yh : Nat → ℚ) :
    ℚ × (Nat → ℚ) × (Nat → ℚ) :=
  let xh1 := histShift order xh
  let yh1 := histShift order yh
  let xh2 := Function.update xh1 0 x
  let y := feedback A order (feedforward B order xh2) yh1
  (y, xh2, Function.update yh1 0 y)

/-- Sample-by-sample driver: feed a finite list of input samples through
`process_filter`, threading the history state; returns the list of output
samples together with the final history state. -/
def processSeq (B A : Nat → ℚ) (order : Nat) :
    List ℚ → (Nat → ℚ) → (Nat → ℚ) → List ℚ × (Nat → ℚ) × (Nat → ℚ)
  | [], xh, yh => ([], xh, yh)
  | x :: xs, xh, yh =>
    let r := process_filter B A order x xh yh
    let rest := processSeq B A order xs r.2.1 r.2.2
    (r.1 :: rest.1, rest.2)

/-- The zero-initialized history array (`= {0}` initializer of
`x_hist` and `y_hist`). -/
def zeroHist : Nat → ℚ := fun _ => 0

-- Basic lemmas about the history shift.

/-- Indices above the shifted range are untouched by the shift loop. -/
theorem histShift_gt (n : Nat) (h : Nat → ℚ) (i : Nat) (hi : n < i) :
    histShift n h i = h i := by
  induction n generalizing h with
  | zero => rfl
  | succ n ih =>
    rw [histShift, ih _ (Nat.lt_of_succ_lt hi)]
    rw [Function.update_noteq (by omega)]

/-- Index 0 is untouched by the shift loop. -/
theorem histShift_zero (n : Nat) (h : Nat → ℚ) : histShift n h 0 = h 0 := by
  induction n generalizing h with
  | zero => rfl
  | succ n ih =>
    rw [histShift, ih]
    rw [Function.update_noteq (by omega)]

/-- Within the shifted range, index `i` receives the prior value of `i - 1`:
`histShift n h (i+1) = h i` for `i + 1 ≤ n`. -/
theorem histShift_succ_le (n : Nat) (h : Nat → ℚ) (i : Nat) (hi : i + 1 ≤ n) :
    histShift n h (i + 1) = h i := by
  induction n generalizing h with
  | zero => omega
  | succ n ih =>
    rw [histShift]
    rcases Nat.lt_or_ge (i + 1) (n + 1) with hlt | hge
    · rw [ih _ (by omega)]
      rw [Function.update_noteq (by omega)]
    · have hieq : i = n := by omega
      subst hieq
      rw [histShift_gt _ _ _ (by omega)]
      rw [Function.update_same]

-- Fold-to-sum characterizations of the two accumulation loops.

theorem foldl_add_map_sum (f : Nat → ℚ) :
    ∀ (l : List Nat) (c : ℚ), l.foldl (fun y i => y + f i) c = c + (l.map f).sum := by
  intro l
  induction l with
  | nil => simp
  | cons a l ih => intro c; simp [List.foldl_cons, ih, add_assoc]

theorem foldl_sub_map_sum (f : Nat → ℚ) :
    ∀ (l : List Nat) (c : ℚ), l.foldl (fun y i => y - f i) c = c - (l.map f).sum := by
  intro l
  induction l with
  | nil => simp
  | cons a l ih => intro c; simp [List.foldl_cons, ih, sub_sub]

theorem list_range_map_sum (f : Nat → ℚ) (n : Nat) :
    ((List.range n).map f).sum = ∑ i in Finset.range n, f i := by
  induction n with
  | zero => simp
  | succ n ih =>
    rw [List.range_succ, List.map_append, List.sum_append, Finset.sum_range_succ, ih]
    simp

theorem list_range1_map_sum (f : Nat → ℚ) (n : Nat) :
    ((List.range' 1 n).map f).sum = ∑ i in Finset.Icc 1 n, f i := by
  induction n with
  | zero => simp
  | succ n ih =>
    rw [List.range'_concat, List.map_append, List.sum_append,
      Finset.sum_Icc_succ_top (by omega), ih]
    simp [Nat.add_comm]

/-- The feedforward loop computes `Σ_{i=0}^{order} B[i]·xh[i]`. -/
theorem feedforward_eq_sum (B : Nat → ℚ) (order : Nat) (xh : Nat → ℚ) :
    feedforward B order xh = ∑ i in Finset.range (order + 1), B i * xh i := by
  rw [feedforward, foldl_add_map_sum, list_range_map_sum, zero_add]

/-- The feedback loop computes `y0 - Σ_{i=1}^{order} A[i]·yh[i]`. -/
theorem feedback_eq_sum (A : Nat → ℚ) (order : Nat) (y0 : ℚ) (yh : Nat → ℚ) :
    feedback A order y0 yh = y0 - ∑ i in Finset.Icc 1 order, A i * yh i := by
  rw [feedback, foldl_sub_map_sum, list_range1_map_sum]

/-- Claim C1: for every input sample `x` and every history state, the output of
`process_filter` equals `Σ_{i=0}^{order} B[i]·x_hist[i] - Σ_{i=1}^{order} A[i]·y_hist[i]`,
where `x_hist` is the post-shift input history with `x` already stored at index 0
and `y_hist` is the post-shift output history; the `A[0]` term is excluded from
the feedback sum. -/
theorem filter_output_formula (B A : Nat → ℚ) (order : Nat) (x : ℚ) (xh yh : Nat → ℚ) :
    (process_filter B A order x xh yh).1 =
      (∑ i in Finset.range (order + 1), B i * Function.update (histShift order xh) 0 x i)
        - ∑ i in Finset.Icc 1 order, A i * histShift order yh i := by
  simp only [process_filter]
  rw [feedback_eq_sum, feedforward_eq_sum]

/-- Claim C2: on every call, index `i` of both histories (for `1 ≤ i ≤ order`)
receives the prior value of index `i - 1`; the new input is stored at
`x_hist[0]` before the output is computed, and the output is stored at
`y_hist[0]` only afterwards, so the computation reads the just-arrived input
(the updated `x_hist`) but only the pre-call output history. -/
theorem filter_history_shift (B A : Nat → ℚ) (order : Nat) (x : ℚ) (xh yh : Nat → ℚ) :
    (process_filter B A order x xh yh).2.1 0 = x
    ∧ (∀ i : Fin order, (process_filter B A order x xh yh).2.1 (i.val + 1) = xh i.val
        ∧ (process_filter B A order x xh yh).2.2 (i.val + 1) = yh i.val)
    ∧ (process_filter B A order x xh yh).2.2 0 = (process_filter B A order x xh yh).1
    ∧ (process_filter B A order x xh yh).1 =
        feedback A order (feedforward B order (process_filter B A order x xh yh).2.1)
          (histShift order yh) := by
  refine ⟨?_, ?_, ?_, rfl⟩
  · simp [process_filter]
  · intro i
    have hi := i.isLt
    constructor
    · simp only [process_filter]
      rw [Function.update_noteq (by omega)]
      exact histShift_succ_le _ _ _ (by omega)
    · simp only [process_filter]
      rw [Function.update_noteq (by omega)]
      exact histShift_succ_le _ _ _ (by omega)
  · simp [process_filter]

/-- Claim C6: the output computed by `process_filter` does not depend on the
value occupying slot 0 of the output history at feedback time: replacing that
slot with an arbitrary value `v` (in particular any in-progress value) leaves
the output unchanged, because the feedback sum reads only `y_hist[1..order]`;
moreover slot 0 at feedback time still holds the previous call's output
(`histShift` leaves index 0 untouched). -/
theorem output_self_exclusion (B A : Nat → ℚ) (order : Nat) (x : ℚ) (xh yh : Nat → ℚ)
    (v : ℚ) :
    (process_filter B A order x xh yh).1 =
      feedback A order (feedforward B order (Function.update (histShift order xh) 0 x))
        (Function.update (histShift order yh) 0 v)
    ∧ histShift order yh 0 = yh 0 := by
  constructor
  · simp only [process_filter]
    rw [feedback_eq_sum, feedback_eq_sum]
    congr 1
    apply Finset.sum_congr rfl
    intro i hi
    have h1 : 1 ≤ i := (Finset.mem_Icc.mp hi).1
    rw [Function.update_noteq (by omega)]
  · exact histShift_zero order yh

/-- Claim C10: the leading feedback coefficient `A[0]` is never read: replacing
the value stored at index 0 of the feedback coefficient array by an arbitrary
value `v` changes neither the output nor the resulting history state. -/
theorem A0_never_read (B A : Nat → ℚ) (order : Nat) (v : ℚ) (x : ℚ) (xh yh : Nat → ℚ) :
    process_filter B (Function.update A 0 v) order x xh yh =
      process_filter B A order x xh yh := by
  simp only [process_filter]
  have hfb : feedback (Function.update A 0 v) order
      (feedforward B order (Function.update (histShift order xh) 0 x))
      (histShift order yh) =
      feedback A order
        (feedforward B order (Function.update (histShift order xh) 0 x))
        (histShift order yh) := by
    rw [feedback_eq_sum, feedback_eq_sum]
    congr 1
    apply Finset.sum_congr rfl
    intro i hi
    have h1 : 1 ≤ i := (Finset.mem_Icc.mp hi).1
    rw [Function.update_noteq (by omega)]
  rw [hfb]

/-- The full mutable global state of the program: the coefficient arrays, the
two history arrays, and the time accumulator `t` of the main loop. -/
structure SimState where
  B_COEFFS : Nat → ℚ
  A_COEFFS : Nat → ℚ
  x_hist : Nat → ℚ
  y_hist : Nat → ℚ
  t : ℚ

/-- One call of `process_filter` viewed as a transformer of the whole program
state: it reads the coefficients and histories from the state and writes back
the two updated histories. -/
def process_filter_step (s : SimState) (x : ℚ) : ℚ × SimState :=
  let r := process_filter s.B_COEFFS s.A_COEFFS FILTER_ORDER x s.x_hist s.y_hist
  (r.1, { s with x_hist := r.2.1, y_hist := r.2.2 })

/-- Claim C9: a call to `process_filter` mutates only the two history arrays:
the coefficient arrays and the time accumulator are unchanged, and the history
arrays change exactly as `process_filter` prescribes. -/
theorem process_frame (s : SimState) (x : ℚ) :
    (process_filter_step s x).2.B_COEFFS = s.B_COEFFS
    ∧ (process_filter_step s x).2.A_COEFFS = s.A_COEFFS
    ∧ (process_filter_step s x).2.t = s.t
    ∧ (process_filter_step s x).2.x_hist =
        (process_filter s.B_COEFFS s.A_COEFFS FILTER_ORDER x s.x_hist s.y_hist).2.1
    ∧ (process_filter_step s x).2.y_hist =
        (process_filter s.B_COEFFS s.A_COEFFS FILTER_ORDER x s.x_hist s.y_hist).2.2 :=
  ⟨rfl, rfl, rfl, rfl, rfl⟩

/-- Claim C8: `process_filter` is deterministic: two calls on equal inputs and
equal history states return equal outputs and equal resulting states. -/
theorem process_deterministic (B A : Nat → ℚ) (order : Nat) (x1 x2 : ℚ)
    (xh1 xh2 yh1 yh2 : Nat → ℚ) (hx : x1 = x2) (hxh : xh1 = xh2) (hyh : yh1 = yh2) :
    process_filter B A order x1 xh1 yh1 = process_filter B A order x2 xh2 yh2 := by
  subst hx; subst hxh; subst hyh; rfl

/-- Witness for C8 at the program's coefficients, input 1 and fresh state. -/
theorem process_deterministic_witness :
    process_filter B_COEFFS A_COEFFS FILTER_ORDER 1 zeroHist zeroHist =
      process_filter B_COEFFS A_COEFFS FILTER_ORDER 1 zeroHist zeroHist :=
  process_deterministic B_COEFFS A_COEFFS FILTER_ORDER 1 1 zeroHist zeroHist zeroHist
    zeroHist rfl rfl rfl

/-- Shifting the all-zero history leaves it all zero. -/
theorem histShift_zeroHist (n : Nat) : histShift n zeroHist = zeroHist := by
  induction n with
  | zero => rfl
  | succ n ih =>
    rw [histShift]
    have h : Function.update zeroHist (n + 1) (zeroHist n) = zeroHist := by
      funext i
      simp [Function.update_apply, zeroHist]
    rw [h, ih]

/-- Storing a zero sample in the all-zero history leaves it all zero. -/
theorem update_zeroHist_zero : Function.update zeroHist 0 (0 : ℚ) = zeroHist := by
  funext i
  simp [Function.update_apply, zeroHist]

/-- Processing a zero sample from the all-zero state returns zero and leaves
the state all zero. -/
theorem process_filter_zero (B A : Nat → ℚ) (order : Nat) :
    process_filter B A order 0 zeroHist zeroHist = (0, zeroHist, zeroHist) := by
  simp only [process_filter, histShift_zeroHist, update_zeroHist_zero]
  have hff : feedforward B order zeroHist = 0 := by
    rw [feedforward_eq_sum]
    simp [zeroHist]
  have hfb : feedback A order 0 zeroHist = 0 := by
    rw [feedback_eq_sum]
    simp [zeroHist]
  rw [hff, hfb, update_zeroHist_zero]

/-- Claim C4: starting from the freshly constructed (all-zero) history state,
processing the zero sample `n` times yields output `0.0` on every call and
leaves both histories all zero. -/
theorem zero_input_zero_output (B A : Nat → ℚ) (order n : Nat) :
    processSeq B A order (List.replicate n 0) zeroHist zeroHist =
      (List.replicate n 0, zeroHist, zeroHist) := by
  induction n with
  | zero => rfl
  | succ n ih =>
    rw [List.replicate_succ, processSeq]
    simp only [process_filter_zero, ih]

/-- Pointwise linear combination of two history arrays. -/
def linComb (a b : ℚ) (f g : Nat → ℚ) : Nat → ℚ := fun i => a * f i + b * g i

theorem linComb_zeroHist (a b : ℚ) : linComb a b zeroHist zeroHist = zeroHist := by
  funext i
  simp [linComb, zeroHist]

theorem histShift_linComb (a b : ℚ) (n : Nat) (f g : Nat → ℚ) :
    histShift n (linComb a b f g) = linComb a b (histShift n f) (histShift n g) := by
  induction n generalizing f g with
  | zero => rfl
  | succ n ih =>
    have hupd : Function.update (linComb a b f g) (n + 1) (linComb a b f g n)
        = linComb a b (Function.update f (n + 1) (f n))
            (Function.update g (n + 1) (g n)) := by
      funext i
      by_cases hi : i = n + 1 <;> simp [Function.update_apply, linComb, hi]
    rw [histShift, histShift, histShift, hupd, ih]

theorem update0_linComb (a b x1 x2 : ℚ) (f g : Nat → ℚ) :
    Function.update (linComb a b f g) 0 (a * x1 + b * x2) =
      linComb a b (Function.update f 0 x1) (Function.update g 0 x2) := by
  funext i
  by_cases hi : i = 0 <;> simp [Function.update_apply, linComb, hi]

theorem feedforward_linComb (B : Nat → ℚ) (order : Nat) (a b : ℚ) (f g : Nat → ℚ) :
    feedforward B order (linComb a b f g) =
      a * feedforward B order f + b * feedforward B order g := by
  rw [feedforward_eq_sum, feedforward_eq_sum, feedforward_eq_sum, Finset.mul_sum,
    Finset.mul_sum, ← Finset.sum_add_distrib]
  apply Finset.sum_congr rfl
  intro i _
  simp only [linComb]
  ring

theorem feedback_linComb (A : Nat → ℚ) (order : Nat) (a b y1 y2 : ℚ) (f g : Nat → ℚ) :
    feedback A order (a * y1 + b * y2) (linComb a b f g) =
      a * feedback A order y1 f + b * feedback A order y2 g := by
  rw [feedback_eq_sum, feedback_eq_sum, feedback_eq_sum]
  have hs : ∑ i in Finset.Icc 1 order, A i * linComb a b f g i =
      a * (∑ i in Finset.Icc 1 order, A i * f i)
        + b * ∑ i in Finset.Icc 1 order, A i * g i := by
    rw [Finset.mul_sum, Finset.mul_sum, ← Finset.sum_add_distrib]
    apply Finset.sum_congr rfl
    intro i _
    simp only [linComb]
    ring
  rw [hs]
  ring

/-- One step of `process_filter` maps a linear combination of inputs and
states to the same linear combination of outputs and states. -/
theorem process_filter_linComb (B A : Nat → ℚ) (order : Nat) (a b x1 x2 : ℚ)
    (xh1 yh1 xh2 yh2 : Nat → ℚ) :
    process_filter B A order (a * x1 + b * x2) (linComb a b xh1 xh2) (linComb a b yh1 yh2)
      = (a * (process_filter B A order x1 xh1 yh1).1
            + b * (process_filter B A order x2 xh2 yh2).1,
         linComb a b (process_filter B A order x1 xh1 yh1).2.1
            (process_filter B A order x2 xh2 yh2).2.1,
         linComb a b (process_filter B A order x1 xh1 yh1).2.2
            (process_filter B A order x2 xh2 yh2).2.2) := by
  simp only [process_filter]
  rw [histShift_linComb, histShift_linComb, update0_linComb, feedforward_linComb,
    feedback_linComb, update0_linComb]

/-- Processing the pointwise linear combination of two input lists from linearly
combined states yields the pointwise linear combination of the two output
lists. -/
theorem processSeq_linComb (B A : Nat → ℚ) (order : Nat) (a b : ℚ) :
    ∀ (X1 X2 : List ℚ) (xh1 yh1 xh2 yh2 : Nat → ℚ),
      (processSeq B A order (List.zipWith (fun u v => a * u + b * v) X1 X2)
        (linComb a b xh1 xh2) (linComb a b yh1 yh2)).1
      = List.zipWith (fun u v => a * u + b * v)
          (processSeq B A order X1 xh1 yh1).1 (processSeq B A order X2 xh2 yh2).1 := by
  intro X1
  induction X1 with
  | nil => intro X2 xh1 yh1 xh2 yh2; simp [processSeq]
  | cons x1 X1 ih =>
    intro X2 xh1 yh1 xh2 yh2
    cases X2 with
    | nil => simp [processSeq]
    | cons x2 X2 =>
      simp only [List.zipWith_cons_cons, processSeq, process_filter_linComb]
      rw [ih]

/-- Claim C5: linearity. For equal-length input lists `X1`, `X2` and scalars
`a`, `b`, processing `a·X1[i] + b·X2[i]` sample-by-sample from the fresh
all-zero state yields, at every index, `a·Y1[i] + b·Y2[i]` where `Y1`, `Y2`
are the outputs of processing `X1` and `X2` independently from fresh state. -/
theorem filter_linearity (B A : Nat → ℚ) (order : Nat) (a b : ℚ) (X1 X2 : List ℚ)
    (_hlen : X1.length = X2.length) :
    (processSeq B A order (List.zipWith (fun u v => a * u + b * v) X1 X2)
        zeroHist zeroHist).1
      = List.zipWith (fun u v => a * u + b * v)
          (processSeq B A order X1 zeroHist zeroHist).1
          (processSeq B A order X2 zeroHist zeroHist).1 := by
  have h := processSeq_linComb B A order a b X1 X2 zeroHist zeroHist zeroHist zeroHist
  rw [linComb_zeroHist] at h
  exact h

/-- Witness for C5 at the program's coefficients, `a = 2`, `b = 3`,
`X1 = [1, 2]`, `X2 = [4, 5]`. -/
theorem filter_linearity_witness :
    (processSeq B_COEFFS A_COEFFS FILTER_ORDER
        (List.zipWith (fun u v => 2 * u + 3 * v) [1, 2] [4, 5]) zeroHist zeroHist).1
      = List.zipWith (fun u v => 2 * u + 3 * v)
          (processSeq B_COEFFS A_COEFFS FILTER_ORDER [1, 2] zeroHist zeroHist).1
          (processSeq B_COEFFS A_COEFFS FILTER_ORDER [4, 5] zeroHist zeroHist).1 :=
  filter_linearity B_COEFFS A_COEFFS FILTER_ORDER 2 3 [1, 2] [4, 5] rfl

/-- The unit-impulse input list `[1, 0, 0, 0, 0]` of the concrete scenario. -/
def impulseInput : List ℚ := [1, 0, 0, 0, 0]

/-- The first five outputs of the program's filter on the unit impulse, from a
freshly constructed (all-zero) history state. -/
def impulseOutputs : List ℚ :=
  (processSeq B_COEFFS A_COEFFS FILTER_ORDER impulseInput zeroHist zeroHist).1

/-- The unit-impulse signal value at time `n`. -/
def impulseX : Nat → ℚ := fun n => if n = 0 then 1 else 0

/-- The direct-form recurrence stated by the spec,
`y[n] = Σ_{i=0}^{2} B[i]·x[n-i] - Σ_{i=1}^{2} A[i]·y[n-i]`,
evaluated analytically on the unit impulse with the program's coefficients
(terms with negative time indices are absent). -/
def specY : Nat → ℚ
  | 0 => B_COEFFS 0 * impulseX 0
  | 1 => B_COEFFS 0 * impulseX 1 + B_COEFFS 1 * impulseX 0 - A_COEFFS 1 * specY 0
  | n + 2 =>
      B_COEFFS 0 * impulseX (n + 2) + B_COEFFS 1 * impulseX (n + 1)
        + B_COEFFS 2 * impulseX n
        - A_COEFFS 1 * specY (n + 1) - A_COEFFS 2 * specY n

/-- Counterexample to claim C3 as stated: the third output `y[2]` of the unit
impulse run is `0.036126587156`, which differs from the claimed value
`0.036129` by about `2.4·10⁻⁶`, more than the claimed `10⁻⁶` tolerance. -/
theorem impulse_y2_not_claimed_value :
    ¬ |impulseOutputs.getD 2 0 - 0.036129| ≤ 1 / 1000000 := by
  have hv : impulseOutputs.getD 2 0 = 9031646789 / 250000000000 := by
    norm_num [impulseOutputs, impulseInput, processSeq, process_filter, feedforward,
      feedback, histShift, Function.update_apply, B_COEFFS, A_COEFFS, zeroHist,
      FILTER_ORDER, List.range', List.range, List.foldl]
  rw [hv]
  rw [abs_le]
  norm_num

/-- Claim C3 (amended): with the program's coefficients and the unit-impulse
input `[1, 0, 0, 0, 0]` fed from a freshly constructed all-zero state, the
first five outputs equal the values of the stated recurrence exactly (hence
within `10⁻⁶`); in particular `y[0] = 0`, `y[1] = 0.020198`, and
`y[2] = 0.020198·1.788622 = 0.036126587156 ≈ 0.036127` (not `0.036129`). -/
theorem impulse_first_five_outputs :
    impulseOutputs = [specY 0, specY 1, specY 2, specY 3, specY 4]
    ∧ specY 0 = 0 ∧ specY 1 = 0.020198
    ∧ specY 2 = 0.020198 * 1.788622
    ∧ |specY 2 - 0.036127| ≤ 1 / 1000000 := by
  have h0 : specY 0 = 0 := by norm_num [specY, impulseX, B_COEFFS]
  have h1 : specY 1 = 0.020198 := by norm_num [specY, impulseX, B_COEFFS, A_COEFFS]
  have h2 : specY 2 = 9031646789 / 250000000000 := by
    norm_num [specY, impulseX, B_COEFFS, A_COEFFS]
  have h3 : specY 3 = 6034936836017379 / 125000000000000000 := by
    norm_num [specY, impulseX, B_COEFFS, A_COEFFS]
  have h4 : specY 4 = 3570780457141297730869 / 62500000000000000000000 := by
    norm_num [specY, impulseX, B_COEFFS, A_COEFFS]
  refine ⟨?_, h0, h1, ?_, ?_⟩
  · rw [h0, h1, h2, h3, h4]
    norm_num [impulseOutputs, impulseInput, processSeq, process_filter, feedforward,
      feedback, histShift, Function.update_apply, B_COEFFS, A_COEFFS, zeroHist,
      FILTER_ORDER, List.range', List.range, List.foldl]
  · rw [h2]; norm_num
  · rw [h2, abs_le]; norm_num

/-- The construction-time failure of the spec's error taxonomy. -/
inductive ConstructError where
  | ConfigurationError

/-- A constructed Filter Evaluator: the order, the two coefficient sequences
and the two history sequences. -/
structure Evaluator where
  order : Nat
  B : List ℚ
  A : List ℚ
  x_hist : List ℚ
  y_hist : List ℚ

/-- Modelled from the spec: the repository has no constructor — the
coefficients, order and histories are compile-time globals of
`src/simulator.cpp` — so `Construct(order, B, A)` and its
`ConfigurationError` are modelled from the spec's words: construction fails
with `ConfigurationError` if either coefficient sequence's length does not
equal `order + 1` or if `A[0]` is zero, and otherwise succeeds, allocating
zero-filled history sequences of length `order + 1`. -/
def Construct (order : Nat) (B A : List ℚ) : Except ConstructError Evaluator :=
  if B.length ≠ order + 1 ∨ A.length ≠ order + 1 then
    Except.error ConstructError.ConfigurationError
  else if A.getD 0 0 = 0 then
    Except.error ConstructError.ConfigurationError
  else
    Except.ok ⟨order, B, A, List.replicate (order + 1) 0, List.replicate (order + 1) 0⟩

/-- Claim C7: construction fails with `ConfigurationError` exactly when a
coefficient sequence's length differs from `order + 1` or `A[0]` is zero, and
otherwise succeeds with the given parameters and zero-filled histories (a
failed construction returns no evaluator, so no `Process` call is possible on
it). -/
theorem construct_spec (order : Nat) (B A : List ℚ) :
    Construct order B A =
      (if B.length ≠ order + 1 ∨ A.length ≠ order + 1 ∨ A.getD 0 0 = 0 then
        Except.error ConstructError.ConfigurationError
      else
        Except.ok ⟨order, B, A, List.replicate (order + 1) 0,
          List.replicate (order + 1) 0⟩) := by
  by_cases hb : B.length = order + 1 <;> by_cases ha : A.length = order + 1 <;>
    by_cases h0 : A.getD 0 0 = 0 <;> simp [Construct, hb, ha, h0]
